import Mathlib

/-!
# Verification of the Marionette I/O pin allocation manager

Shallow embedding of `src/io/io_manage.c` (functions `io_manage_get_table`,
`io_manage_fn_avail`, `io_manage_set_mode`, `io_manage_to_defaults`) and
proofs of the specified properties of the pin allocation registry.

Modelling conventions:
* C machine integers (`uint32_t`, `iomode_t`, `IO_alloc`, the opaque
  `ioportid_t` handle) are modelled as `Nat`; the code only compares them,
  masks them with `&`, and stores them, so no overflow arithmetic occurs.
* The global table-of-tables `io_manage_tables` is passed explicitly as a
  `List IO_table`; the C array of pin records per table is a `List IO_pin`.
* An out-of-bounds array access (undefined behavior in C) makes the
  embedded function return `none`; a run that stays within bounds returns
  `some` of its result.
* The fire-and-forget hardware call `palSetPadMode(port, pad, mode)` is
  recorded in an explicit trace of `(port, pad, mode)` triples.
-/

/-- One pin record of the capability table (struct member of `IO_table.pin`
in the C source): immutable pad id, default mode/allocation and
available-function bitmask, plus the mutable current mode/allocation. -/
structure IO_pin where
  pad : Nat
  default_mode : Nat
  default_alloc : Nat
  fn_available : Nat
  current_mode : Nat
  current_alloc : Nat
deriving DecidableEq, Repr

/-- One per-port allocation table (`IO_table` in the C source): the port
identifier and the array of pin records. -/
structure IO_table where
  port : Nat
  pin : List IO_pin
deriving DecidableEq, Repr

/-- A recorded `palSetPadMode(port, pad, mode)` hardware call. -/
abbrev HwCall := Nat × Nat × Nat

/-- Embedding of `io_manage_get_table`: linear scan of `io_manage_tables`
returning the first table whose `port` field matches, here as an index
into the list (the C code returns a pointer).  Note that, as in the
source, the `pad` argument is received but never used. -/
def io_manage_get_table : List IO_table → Nat → Nat → Option Nat
  | [], _, _ => none
  | t :: ts, port, pad =>
    if t.port = port then some 0
    else (io_manage_get_table ts port pad).map (· + 1)

/-- Embedding of `io_manage_fn_avail`: with a null table the checks are
skipped and the result is `false`; otherwise `table->pin[pad]` is read
(out of bounds when `pad` exceeds the pin array, hence `none`), and the
request is granted when it equals `current_alloc` or its bitwise AND with
`fn_available` is non-zero. -/
def io_manage_fn_avail (pad : Nat) (request_alloc : Nat) :
    Option IO_table → Option Bool
  | none => some false
  | some table =>
    match table.pin[pad]? with
    | none => none
    | some p =>
      if p.current_alloc = request_alloc then some true
      else if request_alloc &&& p.fn_available ≠ 0 then some true
      else some false

/-- Embedding of `io_manage_set_mode`: look the table up, run
`io_manage_fn_avail` on the result, and on success write `current_mode`
and `current_alloc` of `table->pin[pad]` and issue the
`palSetPadMode(port, pad, new_mode)` hardware call.  The C code passes the
possibly-null table pointer straight to `io_manage_fn_avail`; here the
null case is the first branch, using that `io_manage_fn_avail` on a null
table returns `false` (lemma `io_manage_fn_avail_none` below).  Returns
the boolean result, the updated table list and the hardware-call trace,
or `none` when the run hits an out-of-bounds access. -/
def io_manage_set_mode (tables : List IO_table)
    (port pad new_mode request_alloc : Nat) :
    Option (Bool × List IO_table × List HwCall) :=
  match io_manage_get_table tables port pad with
  | none => some (false, tables, [])
  | some i =>
    match tables[i]? with
    | none => none
    | some t =>
      match io_manage_fn_avail pad request_alloc (some t) with
      | none => none
      | some false => some (false, tables, [])
      | some true =>
        match t.pin[pad]? with
        | none => none
        | some p =>
          let p2 : IO_pin :=
            { p with current_mode := new_mode, current_alloc := request_alloc }
          some (true, tables.set i { t with pin := t.pin.set pad p2 },
            [(port, pad, new_mode)])

/-- Inner loop of `io_manage_to_defaults` over `table->pin`: restore each
record's current mode/allocation from its defaults and issue
`palSetPadMode(table->port, pin[j].pad, pin[j].current_mode)` with the
just-restored mode. -/
def io_manage_defaults_pins (port : Nat) : List IO_pin → List IO_pin × List HwCall
  | [] => ([], [])
  | p :: ps =>
    let p2 : IO_pin :=
      { p with current_mode := p.default_mode, current_alloc := p.default_alloc }
    let rest := io_manage_defaults_pins port ps
    (p2 :: rest.1, (port, p.pad, p2.current_mode) :: rest.2)

/-- Embedding of `io_manage_to_defaults`: outer loop over
`io_manage_tables`, inner loop `io_manage_defaults_pins` over each
table's pins.  Returns the restored table list and the hardware-call
trace. -/
def io_manage_to_defaults : List IO_table → List IO_table × List HwCall
  | [] => ([], [])
  | t :: ts =>
    let this := io_manage_defaults_pins t.port t.pin
    let rest := io_manage_to_defaults ts
    ({ t with pin := this.1 } :: rest.1, this.2 ++ rest.2)

/-- A pin record whose mutable fields hold their board defaults. -/
def pin_at_default (p : IO_pin) : Prop :=
  p.current_mode = p.default_mode ∧ p.current_alloc = p.default_alloc

instance (p : IO_pin) : Decidable (pin_at_default p) := by
  unfold pin_at_default; infer_instance

/-- The freshly booted registry state: every pin of every table is at its
board defaults (the static initialisation of `io_manage_tables`). -/
def boot_state (tables : List IO_table) : Prop :=
  ∀ t ∈ tables, ∀ p ∈ t.pin, pin_at_default p

instance (tables : List IO_table) : Decidable (boot_state tables) := by
  unfold boot_state; infer_instance

/-- The registry invariant for one pin: `current_alloc` is the board
default, or intersects the pin's available-function bitmask. -/
def pin_inv (p : IO_pin) : Prop :=
  p.current_alloc = p.default_alloc ∨ p.current_alloc &&& p.fn_available ≠ 0

instance (p : IO_pin) : Decidable (pin_inv p) := by
  unfold pin_inv; infer_instance

/-- The registry invariant: every pin of every table satisfies `pin_inv`. -/
def registry_inv (tables : List IO_table) : Prop :=
  ∀ t ∈ tables, ∀ p ∈ t.pin, pin_inv p

instance (tables : List IO_table) : Decidable (registry_inv tables) := by
  unfold registry_inv; infer_instance

/-- The public mutating operations of the allocation manager. -/
inductive IOOp where
  | setMode (port pad new_mode request_alloc : Nat)
  | toDefaults
deriving DecidableEq, Repr

/-- Run one operation on the registry, discarding the boolean result and
the hardware trace; `none` when the operation hits an out-of-bounds
access. -/
def runOp (tables : List IO_table) : IOOp → Option (List IO_table)
  | .setMode port pad m a => (io_manage_set_mode tables port pad m a).map (fun r => r.2.1)
  | .toDefaults => some (io_manage_to_defaults tables).1

/-- Run a sequence of operations on the registry. -/
def runOps (tables : List IO_table) : List IOOp → Option (List IO_table)
  | [] => some tables
  | op :: ops => (runOp tables op).bind (fun ts => runOps ts ops)

/-- A pin record with the mutable fields restored from the defaults;
this is what one iteration of the `io_manage_to_defaults` inner loop
writes. -/
def pin_to_default (p : IO_pin) : IO_pin :=
  { p with current_mode := p.default_mode, current_alloc := p.default_alloc }

/-- A table with every pin restored to its defaults. -/
def table_to_default (t : IO_table) : IO_table :=
  { t with pin := t.pin.map pin_to_default }

/-- The hardware calls `io_manage_to_defaults` issues for one table:
one per pin, with the pin's pad and restored (default) mode. -/
def default_hw_calls (tables : List IO_table) : List HwCall :=
  tables.flatMap (fun t => t.pin.map (fun p => (t.port, p.pad, p.default_mode)))

/-- `io_manage_fn_avail` on a null table reference returns `false`. -/
theorem io_manage_fn_avail_none (pad r : Nat) :
    io_manage_fn_avail pad r none = some false := rfl

/-- Setting a list position to the value it already holds is a no-op. -/
theorem set_get_self {α : Type} : ∀ (l : List α) (n : Nat) (a : α),
    l[n]? = some a → l.set n a = l
  | [], _, _, h => by simp at h
  | x :: xs, 0, a, h => by
    simp only [List.getElem?_cons_zero, Option.some_inj] at h
    simp [h]
  | x :: xs, n + 1, a, h => by
    simp only [List.getElem?_cons_succ] at h
    simp [set_get_self xs n a h]

/-- `io_manage_get_table` never reads its `pad` argument. -/
theorem get_table_pad_irrelevant :
    ∀ (tables : List IO_table) (port pad pad' : Nat),
    io_manage_get_table tables port pad = io_manage_get_table tables port pad'
  | [], _, _, _ => rfl
  | t :: ts, port, pad, pad' => by
    simp only [io_manage_get_table]
    rw [get_table_pad_irrelevant ts port pad pad']

/-- The index returned by `io_manage_get_table` points at a table whose
`port` field matches the request. -/
theorem get_table_some : ∀ (tables : List IO_table) (port pad i : Nat),
    io_manage_get_table tables port pad = some i →
    ∃ t, tables[i]? = some t ∧ t.port = port
  | [], _, _, _, h => by simp [io_manage_get_table] at h
  | t :: ts, port, pad, i, h => by
    simp only [io_manage_get_table] at h
    by_cases hp : t.port = port
    · rw [if_pos hp] at h
      obtain rfl : (0 : Nat) = i := Option.some_inj.mp h
      exact ⟨t, by simp, hp⟩
    · rw [if_neg hp] at h
      cases hrec : io_manage_get_table ts port pad with
      | none => rw [hrec] at h; cases h
      | some j =>
        rw [hrec] at h
        simp only [Option.map_some', Option.some_inj] at h
        obtain ⟨u, hu, hup⟩ := get_table_some ts port pad j hrec
        refine ⟨u, ?_, hup⟩
        rw [← h]
        simpa using hu

/-- Characterisation of a granted availability check on a present table:
the pad is in bounds and the request equals the pin's `current_alloc` or
intersects its `fn_available` mask. -/
theorem fn_avail_true_iff (pad r : Nat) (t : IO_table) :
    io_manage_fn_avail pad r (some t) = some true ↔
      ∃ p, t.pin[pad]? = some p ∧
        (p.current_alloc = r ∨ r &&& p.fn_available ≠ 0) := by
  cases hp : t.pin[pad]? with
  | none => simp [io_manage_fn_avail, hp]
  | some p =>
    by_cases h1 : p.current_alloc = r
    · simp [io_manage_fn_avail, hp, h1]
    · by_cases h2 : r &&& p.fn_available = 0
      · simp [io_manage_fn_avail, hp, h1, h2]
      · simp [io_manage_fn_avail, hp, h1, h2]

/-- A `set_mode` run that returns `false` leaves the registry untouched
and issues no hardware call. -/
theorem set_mode_false_frame (tables : List IO_table)
    (port pad m a : Nat) (tables' : List IO_table) (tr : List HwCall)
    (h : io_manage_set_mode tables port pad m a = some (false, tables', tr)) :
    tables' = tables ∧ tr = [] := by
  unfold io_manage_set_mode at h
  cases hg : io_manage_get_table tables port pad with
  | none =>
    simp only [hg, Option.some_inj, Prod.mk.injEq, true_and] at h
    exact ⟨h.1.symm, h.2.symm⟩
  | some i =>
    simp only [hg] at h
    cases ht : tables[i]? with
    | none => simp only [ht] at h; cases h
    | some t =>
      simp only [ht] at h
      cases hf : io_manage_fn_avail pad a (some t) with
      | none => simp only [hf] at h; cases h
      | some b =>
        cases b with
        | false =>
          simp only [hf, Option.some_inj, Prod.mk.injEq, true_and] at h
          exact ⟨h.1.symm, h.2.symm⟩
        | true =>
          simp only [hf] at h
          cases hq : t.pin[pad]? with
          | none => simp only [hq] at h; cases h
          | some p => simp only [hq] at h; simp at h

/-- Shape of a successful `set_mode` run: with the table found at index
`i` and the pad in bounds, the result updates exactly that pin's mutable
fields and issues one hardware call. -/
theorem set_mode_success_eq (tables : List IO_table) (port pad m a i : Nat)
    (t : IO_table) (p : IO_pin)
    (hg : io_manage_get_table tables port pad = some i)
    (ht : tables[i]? = some t)
    (hq : t.pin[pad]? = some p)
    (hav : io_manage_fn_avail pad a (some t) = some true) :
    io_manage_set_mode tables port pad m a =
      some (true,
        tables.set i
          { t with pin :=
              t.pin.set pad { p with current_mode := m, current_alloc := a } },
        [(port, pad, m)]) := by
  unfold io_manage_set_mode
  simp only [hg, ht, hav, hq]

/-- The updated pin written by a successful `set_mode` satisfies the
registry invariant: the granted request is the pin's previous owner (which
satisfied the invariant) or intersects the availability mask. -/
theorem pin_inv_after_commit (p : IO_pin) (m a : Nat)
    (hp : pin_inv p)
    (hgrant : p.current_alloc = a ∨ a &&& p.fn_available ≠ 0) :
    pin_inv { p with current_mode := m, current_alloc := a } := by
  cases hgrant with
  | inl heq =>
    cases hp with
    | inl hd => exact Or.inl (by simp [← heq, hd])
    | inr hm => exact Or.inr (by simpa [← heq] using hm)
  | inr hm => exact Or.inr (by simpa using hm)

/-- `io_manage_set_mode` preserves the registry invariant, whatever its
boolean result. -/
theorem set_mode_preserves_inv (tables : List IO_table)
    (port pad m a : Nat) (b : Bool) (tables' : List IO_table) (tr : List HwCall)
    (hinv : registry_inv tables)
    (h : io_manage_set_mode tables port pad m a = some (b, tables', tr)) :
    registry_inv tables' := by
  unfold io_manage_set_mode at h
  cases hg : io_manage_get_table tables port pad with
  | none =>
    simp only [hg, Option.some_inj, Prod.mk.injEq] at h
    exact h.2.1 ▸ hinv
  | some i =>
    simp only [hg] at h
    cases ht : tables[i]? with
    | none => simp only [ht] at h; cases h
    | some t =>
      simp only [ht] at h
      cases hf : io_manage_fn_avail pad a (some t) with
      | none => simp only [hf] at h; cases h
      | some c =>
        cases c with
        | false =>
          simp only [hf, Option.some_inj, Prod.mk.injEq] at h
          exact h.2.1 ▸ hinv
        | true =>
          simp only [hf] at h
          cases hq : t.pin[pad]? with
          | none => simp only [hq] at h; cases h
          | some p =>
            simp only [hq, Option.some_inj, Prod.mk.injEq] at h
            obtain ⟨-, htab, -⟩ := h
            subst htab
            intro u hu
            cases List.mem_or_eq_of_mem_set hu with
            | inl humem => exact hinv u humem
            | inr hueq =>
              subst hueq
              intro q hqmem
              cases List.mem_or_eq_of_mem_set hqmem with
              | inl hqorig => exact hinv t (List.getElem?_mem ht) q hqorig
              | inr hqeq =>
                subst hqeq
                obtain ⟨p', hp', hgrant⟩ := (fn_avail_true_iff pad a t).mp hf
                rw [hq, Option.some_inj] at hp'
                subst hp'
                exact pin_inv_after_commit p m a
                  (hinv t (List.getElem?_mem ht) p (List.getElem?_mem hq)) hgrant

/-- First component of the `io_manage_to_defaults` inner loop: every pin
mapped to its default state. -/
theorem defaults_pins_fst (port : Nat) : ∀ (l : List IO_pin),
    (io_manage_defaults_pins port l).1 = l.map pin_to_default
  | [] => rfl
  | p :: ps => by
    simp only [io_manage_defaults_pins, List.map_cons]
    exact congrArg _ (defaults_pins_fst port ps)

/-- Second component of the `io_manage_to_defaults` inner loop: one
hardware call per pin, carrying the pin's pad and its default mode. -/
theorem defaults_pins_snd (port : Nat) : ∀ (l : List IO_pin),
    (io_manage_defaults_pins port l).2 =
      l.map (fun p => (port, p.pad, p.default_mode))
  | [] => rfl
  | p :: ps => by
    simp only [io_manage_defaults_pins, List.map_cons]
    exact congrArg _ (defaults_pins_snd port ps)

/-- First component of `io_manage_to_defaults`: every table mapped to its
default state. -/
theorem to_defaults_fst : ∀ (tables : List IO_table),
    (io_manage_to_defaults tables).1 = tables.map table_to_default
  | [] => rfl
  | t :: ts => by
    simp only [io_manage_to_defaults, List.map_cons]
    rw [to_defaults_fst ts]
    unfold table_to_default
    rw [defaults_pins_fst]

/-- Second component of `io_manage_to_defaults`: the hardware-call trace
lists, in table order then pin order, one call per pin with its pad and
default mode. -/
theorem to_defaults_snd : ∀ (tables : List IO_table),
    (io_manage_to_defaults tables).2 = default_hw_calls tables
  | [] => rfl
  | t :: ts => by
    simp only [io_manage_to_defaults]
    rw [to_defaults_snd ts]
    unfold default_hw_calls
    rw [List.flatMap_cons, defaults_pins_snd]

/-- A registry of tables mapped to their defaults is a boot state. -/
theorem boot_state_map_default (tables : List IO_table) :
    boot_state (tables.map table_to_default) := by
  intro t ht
  obtain ⟨u, -, rfl⟩ := List.mem_map.mp ht
  intro p hp
  obtain ⟨q, -, rfl⟩ := List.mem_map.mp hp
  exact ⟨rfl, rfl⟩

/-- A boot state satisfies the registry invariant. -/
theorem boot_state_inv (tables : List IO_table)
    (h : boot_state tables) : registry_inv tables :=
  fun t ht p hp => Or.inl (h t ht p hp).2

/-- Restoring a pin to defaults is idempotent. -/
theorem pin_to_default_idem (p : IO_pin) :
    pin_to_default (pin_to_default p) = pin_to_default p := rfl

/-- Restoring a table to defaults is idempotent. -/
theorem table_to_default_idem (t : IO_table) :
    table_to_default (table_to_default t) = table_to_default t := by
  unfold table_to_default
  simp only [List.map_map]
  exact congrArg _ (List.map_congr_left (fun p _ => pin_to_default_idem p))

/-- Running one public operation preserves the registry invariant. -/
theorem runOp_preserves_inv (tables : List IO_table) (op : IOOp)
    (tables' : List IO_table)
    (hinv : registry_inv tables) (h : runOp tables op = some tables') :
    registry_inv tables' := by
  cases op with
  | setMode port pad m a =>
    simp only [runOp] at h
    cases hs : io_manage_set_mode tables port pad m a with
    | none => rw [hs] at h; cases h
    | some r =>
      rw [hs] at h
      simp only [Option.map_some', Option.some_inj] at h
      subst h
      exact set_mode_preserves_inv tables port pad m a r.1 r.2.1 r.2.2 hinv
        (by rw [hs])
  | toDefaults =>
    simp only [runOp, Option.some_inj] at h
    subst h
    rw [to_defaults_fst]
    exact boot_state_inv _ (boot_state_map_default tables)

/-- Running any sequence of public operations preserves the registry
invariant. -/
theorem runOps_preserves_inv : ∀ (ops : List IOOp) (tables tables' : List IO_table),
    registry_inv tables → runOps tables ops = some tables' →
    registry_inv tables'
  | [], tables, tables', hinv, h => by
    simp only [runOps, Option.some_inj] at h
    exact h ▸ hinv
  | op :: ops, tables, tables', hinv, h => by
    simp only [runOps] at h
    cases ho : runOp tables op with
    | none => rw [ho] at h; cases h
    | some mid =>
      rw [ho] at h
      simp only [Option.some_bind] at h
      exact runOps_preserves_inv ops mid tables'
        (runOp_preserves_inv tables op mid hinv ho) h

/-- Example pin: pad 0, default mode 1, default owner 2 (bit 1), available
functions bitmask 3 (bits 0 and 1), currently at its defaults. -/
def exPin0 : IO_pin :=
  { pad := 0, default_mode := 1, default_alloc := 2, fn_available := 3,
    current_mode := 1, current_alloc := 2 }

/-- Example pin: pad 1, default owner 4 (bit 2), available mask 12. -/
def exPin1 : IO_pin :=
  { pad := 1, default_mode := 0, default_alloc := 4, fn_available := 12,
    current_mode := 0, current_alloc := 4 }

/-- Example pin on the second port: default owner 8 (bit 3), mask 9. -/
def exPin2 : IO_pin :=
  { pad := 0, default_mode := 2, default_alloc := 8, fn_available := 9,
    current_mode := 2, current_alloc := 8 }

/-- Example table for port 1 with two pins. -/
def exT1 : IO_table := { port := 1, pin := [exPin0, exPin1] }

/-- Example table for port 2 with one pin. -/
def exT2 : IO_table := { port := 2, pin := [exPin2] }

/-- Example registry in its freshly booted state. -/
def exBoot : List IO_table := [exT1, exT2]

/-- C1: starting from the boot/default state, after every sequence of
`io_manage_set_mode` and `io_manage_to_defaults` operations, every pin's
`current_alloc` is its `default_alloc` or intersects its
`fn_available` bitmask (it never lies entirely outside that bitmask). -/
theorem C1_registry_invariant (reg0 : List IO_table) (ops : List IOOp)
    (reg : List IO_table) (hboot : boot_state reg0)
    (hrun : runOps reg0 ops = some reg) : registry_inv reg :=
  runOps_preserves_inv ops reg0 reg (boot_state_inv reg0 hboot) hrun

/-- C1 witness: a concrete boot registry and operation sequence. -/
theorem C1_witness :
    boot_state exBoot ∧
    runOps exBoot [IOOp.setMode 1 0 7 1, IOOp.toDefaults] = some exBoot ∧
    registry_inv exBoot :=
  ⟨by decide, by decide,
    C1_registry_invariant exBoot [IOOp.setMode 1 0 7 1, IOOp.toDefaults]
      exBoot (by decide) (by decide)⟩

/-- C2: whenever `io_manage_set_mode` returns `false` (port not found, or
the availability check rejects), the registry is exactly its pre-request
value and no `palSetPadMode` hardware call is made. -/
theorem C2_failure_atomicity (tables : List IO_table)
    (port pad m a : Nat) (tables' : List IO_table) (tr : List HwCall)
    (h : io_manage_set_mode tables port pad m a = some (false, tables', tr)) :
    tables' = tables ∧ tr = [] :=
  set_mode_false_frame tables port pad m a tables' tr h

/-- C2 witness: a request for an unregistered port is rejected with the
registry untouched and an empty hardware trace. -/
theorem C2_witness :
    io_manage_set_mode exBoot 3 0 7 1 = some (false, exBoot, []) ∧
    exBoot = exBoot ∧ ([] : List HwCall) = [] :=
  ⟨by decide, C2_failure_atomicity exBoot 3 0 7 1 exBoot [] (by decide)⟩

/-- C3: the availability check `io_manage_fn_avail` returns `false` on an
absent table reference, and on a found pin record it returns `true` iff
the requested tag equals the pin's `current_alloc` or its bitwise AND
with the pin's `fn_available` mask is non-zero, `false` iff neither
condition holds (the embedding is a pure function, so it has no side
effects by construction; condition (b) does not consult
`current_alloc`). -/
theorem C3_fn_avail_spec :
    (∀ pad r : Nat, io_manage_fn_avail pad r none = some false) ∧
    (∀ (t : IO_table) (pad r : Nat) (p : IO_pin), t.pin[pad]? = some p →
      ((io_manage_fn_avail pad r (some t) = some true ↔
          (r = p.current_alloc ∨ r &&& p.fn_available ≠ 0)) ∧
        (io_manage_fn_avail pad r (some t) = some false ↔
          ¬(r = p.current_alloc ∨ r &&& p.fn_available ≠ 0)))) := by
  refine ⟨fun pad r => rfl, fun t pad r p hp => ?_⟩
  constructor
  · by_cases h1 : p.current_alloc = r
    · simp [io_manage_fn_avail, hp, h1, eq_comm]
    · by_cases h2 : r &&& p.fn_available = 0
      · simp only [io_manage_fn_avail, hp, h1, h2]
        simp only [if_neg h1, ne_eq, not_true_eq_false, not_not, if_pos h2]
        constructor
        · intro hc; cases hc
        · intro hc
          cases hc with
          | inl hr => exact absurd hr.symm h1
          | inr hm => exact hm.elim
      · simp [io_manage_fn_avail, hp, h1, h2, eq_comm]
  · by_cases h1 : p.current_alloc = r
    · simp [io_manage_fn_avail, hp, h1, eq_comm]
    · by_cases h2 : r &&& p.fn_available = 0
      · simp only [io_manage_fn_avail, hp, h1, h2]
        simp only [if_neg h1, ne_eq, not_true_eq_false, not_not, if_pos h2]
        constructor
        · intro hc hor
          cases hor with
          | inl hr => exact h1 hr.symm
          | inr hm => exact hm.elim
        · intro hc; rfl
      · simp [io_manage_fn_avail, hp, h1, h2, eq_comm]

/-- C3 witness: concrete checks on the example table, including the null
table case and both directions at a found pin. -/
theorem C3_witness :
    io_manage_fn_avail 0 1 none = some false ∧
    exT1.pin[0]? = some exPin0 ∧
    (io_manage_fn_avail 0 1 (some exT1) = some true ↔
      (1 = exPin0.current_alloc ∨ 1 &&& exPin0.fn_available ≠ 0)) :=
  ⟨C3_fn_avail_spec.1 0 1, by decide,
    (C3_fn_avail_spec.2 exT1 0 1 exPin0 (by decide)).1⟩

/-- C4: evaluation at the failing input.  For a registered port (port 1,
whose pin array has length 2) and an out-of-range pad (5) the code does
not reject the request with `false`: it reads `table->pin[pad]` out of
bounds (undefined behavior in C, `none` in this total embedding), so the
claimed safe rejection does not happen. -/
theorem C4_oob_pad_not_rejected :
    io_manage_set_mode exBoot 1 5 7 1 = none ∧
    io_manage_set_mode exBoot 3 0 7 1 = some (false, exBoot, []) := by
  constructor <;> decide

/-- C5: for a pin present in the table, a request whose tag has empty
intersection with the pin's `fn_available` mask and differs from the
pin's `current_alloc` always fails, leaving the registry untouched and
making no hardware call. -/
theorem C5_capability_enforcement (tables : List IO_table)
    (port pad m G i : Nat) (t : IO_table) (p : IO_pin)
    (hg : io_manage_get_table tables port pad = some i)
    (ht : tables[i]? = some t)
    (hp : t.pin[pad]? = some p)
    (hmask : G &&& p.fn_available = 0)
    (hown : p.current_alloc ≠ G) :
    io_manage_set_mode tables port pad m G = some (false, tables, []) := by
  have hf : io_manage_fn_avail pad G (some t) = some false := by
    simp [io_manage_fn_avail, hp, hown, hmask]
  unfold io_manage_set_mode
  simp [hg, ht, hf]

/-- C5 witness: requesting function 4 on pin 0 of port 1 (mask 3, owner
2) is rejected without any state change. -/
theorem C5_witness :
    4 &&& exPin0.fn_available = 0 ∧ exPin0.current_alloc ≠ 4 ∧
    io_manage_set_mode exBoot 1 0 9 4 = some (false, exBoot, []) :=
  ⟨by decide, by decide,
    C5_capability_enforcement exBoot 1 0 9 4 0 exT1 exPin0
      (by decide) (by decide) (by decide) (by decide) (by decide)⟩

/-- C6: re-requesting a pin's current owner with its current mode
succeeds and leaves the whole registry unchanged (one hardware call with
the unchanged mode is still issued). -/
theorem C6_idempotent_reassertion (tables : List IO_table)
    (port pad i F M : Nat) (t : IO_table) (p : IO_pin)
    (hg : io_manage_get_table tables port pad = some i)
    (ht : tables[i]? = some t)
    (hp : t.pin[pad]? = some p)
    (hF : p.current_alloc = F) (hM : p.current_mode = M) :
    io_manage_set_mode tables port pad M F =
      some (true, tables, [(port, pad, M)]) := by
  subst hF; subst hM
  have hav : io_manage_fn_avail pad p.current_alloc (some t) = some true := by
    simp [io_manage_fn_avail, hp]
  rw [set_mode_success_eq tables port pad p.current_mode p.current_alloc i t p
    hg ht hp hav]
  have e1 : ({ p with
      current_mode := p.current_mode,
      current_alloc := p.current_alloc } : IO_pin) = p := rfl
  rw [e1, set_get_self t.pin pad p hp]
  have e2 : ({ t with pin := t.pin } : IO_table) = t := rfl
  rw [e2, set_get_self tables i t ht]

/-- C6 witness: re-requesting owner 2 with mode 1 on pin 0 of port 1. -/
theorem C6_witness :
    exPin0.current_alloc = 2 ∧ exPin0.current_mode = 1 ∧
    io_manage_set_mode exBoot 1 0 1 2 = some (true, exBoot, [(1, 0, 1)]) :=
  ⟨by decide, by decide,
    C6_idempotent_reassertion exBoot 1 0 0 2 1 exT1 exPin0
      (by decide) (by decide) (by decide) (by decide) (by decide)⟩

/-- C7: from any registry state, `io_manage_to_defaults` leaves every pin
of every table with `current_mode = default_mode` and
`current_alloc = default_alloc` — the registry equals the freshly booted
image of its capability data — and issues exactly one hardware call per
pin, in order, carrying the pin's pad and its restored (default) mode. -/
theorem C7_reset_restores_defaults (tables : List IO_table) :
    boot_state (io_manage_to_defaults tables).1 ∧
    (io_manage_to_defaults tables).1 = tables.map table_to_default ∧
    (io_manage_to_defaults tables).2 = default_hw_calls tables := by
  refine ⟨?_, to_defaults_fst tables, to_defaults_snd tables⟩
  rw [to_defaults_fst]
  exact boot_state_map_default tables

/-- C8: running `io_manage_to_defaults` twice in a row produces exactly
the registry state a single run produces. -/
theorem C8_reset_idempotent (tables : List IO_table) :
    (io_manage_to_defaults (io_manage_to_defaults tables).1).1 =
      (io_manage_to_defaults tables).1 := by
  rw [to_defaults_fst, to_defaults_fst, List.map_map]
  exact List.map_congr_left (fun t _ => table_to_default_idem t)

/-- C9: no operation validates the pad index: `io_manage_get_table`'s
result is independent of its pad argument, and for a registered port and
a pad at or beyond the pin-array length both `io_manage_fn_avail` and
`io_manage_set_mode` reach the out-of-bounds access (`none` in this total
embedding) instead of rejecting the request with `false`. -/
theorem C9_pad_never_validated :
    (∀ (tables : List IO_table) (port pad pad' : Nat),
      io_manage_get_table tables port pad =
        io_manage_get_table tables port pad') ∧
    (∀ (t : IO_table) (pad r : Nat), t.pin.length ≤ pad →
      io_manage_fn_avail pad r (some t) = none) ∧
    (∀ (tables : List IO_table) (port pad m a i : Nat) (t : IO_table),
      io_manage_get_table tables port pad = some i → tables[i]? = some t →
      t.pin.length ≤ pad →
      io_manage_set_mode tables port pad m a = none) := by
  have havail : ∀ (t : IO_table) (pad r : Nat), t.pin.length ≤ pad →
      io_manage_fn_avail pad r (some t) = none := by
    intro t pad r hlen
    simp [io_manage_fn_avail, List.getElem?_eq_none_iff.mpr hlen]
  refine ⟨get_table_pad_irrelevant, havail, ?_⟩
  intro tables port pad m a i t hg ht hlen
  unfold io_manage_set_mode
  simp [hg, ht, havail t pad a hlen]

/-- C9 witness: pad 99 gives the same lookup as pad 0, and pad 5 on port
1 (two pins) drives both the check and the commit path out of bounds. -/
theorem C9_witness :
    io_manage_get_table exBoot 1 0 = io_manage_get_table exBoot 1 99 ∧
    io_manage_fn_avail 5 1 (some exT1) = none ∧
    io_manage_set_mode exBoot 1 5 7 1 = none :=
  ⟨C9_pad_never_validated.1 exBoot 1 0 99,
    C9_pad_never_validated.2.1 exT1 5 1 (by decide),
    C9_pad_never_validated.2.2 exBoot 1 5 7 1 0 exT1
      (by decide) (by decide) (by decide)⟩

/-- C10: a request whose value has a bit inside the pin's `fn_available`
mask and a bit outside it (and differs from the current owner) is granted
and stored verbatim: request 5 on pin 0 (mask 3, owner 2) succeeds and
`current_alloc` becomes the full value 5. -/
theorem C10_multibit_commit :
    5 &&& exPin0.fn_available ≠ 0 ∧
    5 &&& exPin0.fn_available ≠ 5 ∧
    exPin0.current_alloc ≠ 5 ∧
    io_manage_set_mode exBoot 1 0 7 5 =
      some (true,
        [{ exT1 with pin :=
            [{ exPin0 with current_mode := 7, current_alloc := 5 }, exPin1] },
          exT2],
        [(1, 0, 7)]) := by
  refine ⟨by decide, by decide, by decide, by decide⟩
